import Mathlib

/-!
Verification development for the qrcode-web-shaper rendering pipeline.

The definitions below are a shallow embedding of the core rendering code:

* `src/components/QRCodeGenerator.tsx` — `drawHalfCirclePattern`,
  `generateCompositeQR`, `generatePreview`, `downloadQRCode`,
  `handleColorChange` and the hex text-input handler;
* the batch component (`generateQRCodeBase64`, `parseUrls`, `generateXLSX`).

Numbers are modelled as exact rationals (reals where the source uses
transcendental functions: `Math.sin`, `Math.sqrt(2)`, trigonometric
rotation).  Canvas drawing is modelled by the cell lists / cell sets the
code computes; external collaborators (the `qrcode` library, canvas
contexts, the xlsx writer) are parameters.
-/

namespace QrShaper

/-- Style parameters of a render (`HalfCircleSettings` in the source):
`distance` (0–100 slider), `cellSize` (2–15 slider), `size`
(25–100 slider) and the pattern `seed`. -/
structure HalfCircleSettings where
  distance : ℚ
  cellSize : ℚ
  size : ℚ
  seed : ℚ

/-- `const halfCircleRadius = (size * settings.size) / 100`. -/
def halfCircleRadius (qrSize : ℚ) (st : HalfCircleSettings) : ℚ :=
  qrSize * st.size / 100

/-- `const scaledDistance = ((settings.distance - 50) / 100) * size`. -/
def scaledDistance (qrSize : ℚ) (st : HalfCircleSettings) : ℚ :=
  (st.distance - 50) / 100 * qrSize

/-- `const scaledCellSize = Math.max(2, (settings.cellSize / 100) * size)`. -/
def scaledCellSize (qrSize : ℚ) (st : HalfCircleSettings) : ℚ :=
  max 2 (st.cellSize / 100 * qrSize)

/-- `const maxDistance = Math.max(0, scaledDistance)`. -/
def maxDistance (qrSize : ℚ) (st : HalfCircleSettings) : ℚ :=
  max 0 (scaledDistance qrSize st)

/-- `const compositeSize = size + halfCircleRadius + maxDistance`. -/
def compositeSize (qrSize : ℚ) (st : HalfCircleSettings) : ℚ :=
  qrSize + halfCircleRadius qrSize st + maxDistance qrSize st

/-- The `direction` argument of `drawHalfCirclePattern`. -/
inductive Direction where
  | right : Direction
  | bottom : Direction

/-- Values taken by a loop variable of `drawHalfCirclePattern` starting at
`x` and stepping by `cellSize` while `x ≤ radius`
(`for (let x = -radius; x <= radius; x += cellSize)`).  The source loop
terminates only for a positive step, so step positivity is part of the
guard of this total model. -/
def loopFrom (radius cellSize x : ℚ) : List ℚ :=
  if h : x ≤ radius ∧ 0 < cellSize then
    x :: loopFrom radius cellSize (x + cellSize)
  else []
termination_by (⌊(radius - x) / cellSize⌋ + 1).toNat
decreasing_by
  have hx := h.1
  have hc := h.2
  have h0 : (0 : ℚ) ≤ (radius - x) / cellSize :=
    div_nonneg (by linarith) (le_of_lt hc)
  have h1 : (0 : ℤ) ≤ ⌊(radius - x) / cellSize⌋ := Int.floor_nonneg.mpr h0
  have h2 : (radius - (x + cellSize)) / cellSize = (radius - x) / cellSize - 1 := by
    rw [show radius - (x + cellSize) = (radius - x) - cellSize by ring, sub_div,
      div_self (ne_of_gt hc)]
  have h3 : ⌊(radius - (x + cellSize)) / cellSize⌋ = ⌊(radius - x) / cellSize⌋ - 1 := by
    rw [h2, show ((1 : ℚ)) = ((1 : ℤ) : ℚ) by norm_num, Int.floor_sub_int]
  omega

/-- Number of iterations the loop performs from position `x` (for a
positive step). -/
def iterCount (radius cellSize x : ℚ) : ℕ :=
  if x ≤ radius then (⌊(radius - x) / cellSize⌋).toNat + 1 else 0

/-- Candidate offsets enumerated on one axis: from `-radius` to `radius`
with step `cellSize`. -/
def gridPoints (radius cellSize : ℚ) : List ℚ :=
  loopFrom radius cellSize (-radius)

/-- Distance test `Math.sqrt(x * x + y * y) <= r`, expressed by the
equivalent squared comparison so that it is decidable over `ℚ`
(see `distWithin_iff_sqrt`). -/
def distWithin (x y r : ℚ) : Bool :=
  decide (0 ≤ r ∧ x * x + y * y ≤ r * r)

/-- In-region test of `drawHalfCirclePattern`: the candidate offset is kept
when its distance from the center is at most `radius - cellSize / 2` and it
lies on the selected half (`x >= 0` for right, `y >= 0` for bottom). -/
def inHalfCircle (radius cellSize : ℚ) (dir : Direction) (x y : ℚ) : Bool :=
  distWithin x y (radius - cellSize / 2) &&
    (match dir with
     | Direction.right => decide (0 ≤ x)
     | Direction.bottom => decide (0 ≤ y))

/-- The `cells` array built by `drawHalfCirclePattern`: all in-region grid
candidates, translated to absolute coordinates `(centerX + x, centerY + y)`. -/
def patternCells (centerX centerY radius cellSize : ℚ) (dir : Direction) :
    List (ℚ × ℚ) :=
  (gridPoints radius cellSize).flatMap fun x =>
    (gridPoints radius cellSize).filterMap fun y =>
      if inHalfCircle radius cellSize dir x y then
        some (centerX + x, centerY + y)
      else none

/-- Keep/drop decision of `drawHalfCirclePattern`:
`hash = Math.sin(cell.x * 12.9898 + cell.y * 78.233 + seed * 47.123) * 43758.5453`
and `shouldFill = (hash - Math.floor(hash)) > 0.45`. -/
def shouldFill (x y seed : ℚ) : Prop :=
  0.45 <
    Real.sin ((x : ℝ) * 12.9898 + (y : ℝ) * 78.233 + (seed : ℝ) * 47.123) * 43758.5453 -
      ⌊Real.sin ((x : ℝ) * 12.9898 + (y : ℝ) * 78.233 + (seed : ℝ) * 47.123) * 43758.5453⌋

/-- Cells actually drawn (`fillRect`) by `drawHalfCirclePattern`: the
in-region cells whose hash passes the threshold. -/
def keptCells (centerX centerY radius cellSize : ℚ) (dir : Direction)
    (seed : ℚ) : Set (ℚ × ℚ) :=
  { p | p ∈ patternCells centerX centerY radius cellSize dir ∧
        shouldFill p.1 p.2 seed }

/-- Center of the right-hand pattern in `generateCompositeQR`:
`(size + scaledDistance, size / 2)`. -/
def rightCenter (qrSize : ℚ) (st : HalfCircleSettings) : ℚ × ℚ :=
  (qrSize + scaledDistance qrSize st, qrSize / 2)

/-- Center of the bottom pattern in `generateCompositeQR`:
`(size / 2, size + scaledDistance)`. -/
def bottomCenter (qrSize : ℚ) (st : HalfCircleSettings) : ℚ × ℚ :=
  (qrSize / 2, qrSize + scaledDistance qrSize st)

/-- All in-region pattern cells of the composite: the two
`drawHalfCirclePattern` invocations of `generateCompositeQR`. -/
def compositeCells (qrSize : ℚ) (st : HalfCircleSettings) : List (ℚ × ℚ) :=
  patternCells (rightCenter qrSize st).1 (rightCenter qrSize st).2
      (halfCircleRadius qrSize st) (scaledCellSize qrSize st) Direction.right ++
    patternCells (bottomCenter qrSize st).1 (bottomCenter qrSize st).2
      (halfCircleRadius qrSize st) (scaledCellSize qrSize st) Direction.bottom

/-- All drawn pattern cells of the composite. -/
def compositeKept (qrSize : ℚ) (st : HalfCircleSettings) : Set (ℚ × ℚ) :=
  keptCells (rightCenter qrSize st).1 (rightCenter qrSize st).2
      (halfCircleRadius qrSize st) (scaledCellSize qrSize st) Direction.right st.seed ∪
    keptCells (bottomCenter qrSize st).1 (bottomCenter qrSize st).2
      (halfCircleRadius qrSize st) (scaledCellSize qrSize st) Direction.bottom st.seed

/-- Rotation angle of the orientation step:
`(-135 * Math.PI) / 180` (radians). -/
noncomputable def rotationAngle : ℝ :=
  -135 * Real.pi / 180

/-- Side of the final canvas:
`const diagonal = Math.ceil(Math.sqrt(2) * compositeCanvas.width)`. -/
noncomputable def finalDiagonal (s : ℚ) : ℤ :=
  ⌈Real.sqrt 2 * (s : ℝ)⌉

/-- Point transform applied by the rotation step of `generatePreview` /
`downloadQRCode`: `translate(diagonal / 2, diagonal / 2)`, then
`rotate(rotationAngle)`, then `translate(-s / 2, -s / 2)`, then draw the
composite at the origin.  A source pixel `p` of the composite of side `s`
lands at this position of the final canvas. -/
noncomputable def rotatePoint (s : ℚ) (p : ℝ × ℝ) : ℝ × ℝ :=
  (((finalDiagonal s : ℤ) : ℝ) / 2 +
      (Real.cos rotationAngle * (p.1 - (s : ℝ) / 2) -
        Real.sin rotationAngle * (p.2 - (s : ℝ) / 2)),
    ((finalDiagonal s : ℤ) : ℝ) / 2 +
      (Real.sin rotationAngle * (p.1 - (s : ℝ) / 2) +
        Real.cos rotationAngle * (p.2 - (s : ℝ) / 2)))

/-- Caller-visible state of the preview component: the two React states
`compositeDataUrl` and `error`. -/
structure PreviewState where
  compositeDataUrl : Option String
  error : Option String

/-- Message set by the catch branch of `generatePreview`. -/
def previewErrorMessage : String :=
  "Échec de la génération du QR code. Veuillez réessayer."

/-- Message set by the catch branch of `downloadQRCode`. -/
def downloadErrorMessage : String :=
  "Échec du téléchargement. Veuillez réessayer."

/-- State update performed by `generatePreview` once the render attempt has
finished: on success (`some dataUrl`) it stores the new data URL and clears
the error; on failure the catch branch sets the error message and
`setCompositeDataUrl(null)`. -/
def generatePreviewStep (result : Option String) (s : PreviewState) : PreviewState :=
  match result with
  | some dataUrl => { compositeDataUrl := some dataUrl, error := none }
  | none => { compositeDataUrl := none, error := some previewErrorMessage }

/-- State update performed by `downloadQRCode`, as a function of its first
fallible step: when `generateCompositeQR` yields no canvas the function
throws and the catch branch sets the download error, leaving
`compositeDataUrl` untouched; when the composite is produced, no state
changes — both on success and on the silent `if (!ctx) return;` path taken
when the final canvas context is unavailable (that path sets no error). -/
def downloadStep (composite : Option String) (s : PreviewState) : PreviewState :=
  match composite with
  | some _ => s
  | none => { s with error := some downloadErrorMessage }

/-- Whether `downloadQRCode` actually triggers a download (`link.click()`):
only when `generateCompositeQR` produced a composite and the final canvas
context is available; the `if (!ctx) return;` path (context unavailable)
exits before the download with no image and no message. -/
def downloadTriggered (composite : Option String) (ctxAvailable : Bool) : Bool :=
  match composite with
  | some _ => ctxAvailable
  | none => false

/-- One character of `[0-9A-Fa-f]`. -/
def isHexDigitChar (c : Char) : Bool :=
  (decide ('0' ≤ c) && decide (c ≤ '9')) ||
    (decide ('A' ≤ c) && decide (c ≤ 'F')) ||
    (decide ('a' ≤ c) && decide (c ≤ 'f'))

/-- The test `/^#[0-9A-Fa-f]{6}$/.test(color)`. -/
def isValidHexColor (s : String) : Bool :=
  match s.data with
  | '#' :: rest => decide (rest.length = 6) && rest.all isHexDigitChar
  | _ => false

/-- `handleColorChange`: `setQrColor(color)` only when the pattern matches,
otherwise the stored color is unchanged. -/
def handleColorChange (current input : String) : String :=
  if isValidHexColor input then input else current

/-- The test `value.startsWith("#")`. -/
def startsWithHash (s : String) : Bool :=
  match s.data with
  | '#' :: _ => true
  | _ => false

/-- The hex text input `onChange` handler of `QRCodeGenerator`: a value that
starts with `#` and has at most 7 characters is committed through
`handleColorChange` when it has exactly 7 characters, and stored directly
(`setQrColor(value)`) when shorter; other values leave the state unchanged. -/
def hexTextInputChange (current input : String) : String :=
  if startsWithHash input && decide (input.length ≤ 7) then
    if input.length = 7 then handleColorChange current input else input
  else current

/-- Semantics of the JavaScript `text.split("\n")` on the character list:
splits at every newline, keeping empty segments. -/
def splitNewlines (l : List Char) : List (List Char) :=
  match l with
  | [] => [[]]
  | c :: rest =>
    match splitNewlines rest with
    | [] => [[c]]
    | h :: t => if c = '\n' then [] :: h :: t else (c :: h) :: t

/-- Semantics of the JavaScript `s.trim()`: drop whitespace from both ends. -/
def jsTrim (s : String) : String :=
  String.mk (((s.data.dropWhile Char.isWhitespace).reverse.dropWhile
    Char.isWhitespace).reverse)

/-- `parseUrls` of the batch component: split on newlines, optionally drop
lines that are blank after trimming, then trim every line. -/
def parseUrls (text : String) (removeEmpty : Bool) : List String :=
  let lines := (splitNewlines text.data).map String.mk
  let lines := if removeEmpty then lines.filter (fun l => jsTrim l ≠ "") else lines
  lines.map (fun l => jsTrim l)

/-- QR raster width used by the spreadsheet-embedding encoder
(`qrSize: number = 150`, reduced for a smaller base64). -/
def spreadsheetQrSize : ℚ := 150

/-- JPEG quality used by the spreadsheet-embedding encoder
(`finalCanvas.toDataURL("image/jpeg", 0.7)`). -/
def spreadsheetJpegQuality : ℚ := 7 / 10

/-- Hard per-cell length ceiling of the spreadsheet format. -/
def excelCellLimit : ℕ := 32767

/-- Rows accumulated by `generateXLSX`: for each parsed URL whose trim is
nonempty, a `(URL, QRCode)` pair where the second component is whatever
string the encoder (`generateQRCodeBase64`, external canvas encoding)
returns — stored verbatim, with no length check. -/
def xlsxRows (encode : String → String) (urlText : String) : List (String × String) :=
  (parseUrls urlText true).filterMap fun url =>
    if jsTrim url ≠ "" then some (url, encode url) else none

theorem iterCount_step (radius cellSize x : ℚ) (hc : 0 < cellSize) (hx : x ≤ radius) :
    iterCount radius cellSize x = iterCount radius cellSize (x + cellSize) + 1 := by
  by_cases h : x + cellSize ≤ radius
  · have h1 : (1 : ℚ) ≤ (radius - x) / cellSize := by
      rw [one_le_div hc]; linarith
    have h2 : (1 : ℤ) ≤ ⌊(radius - x) / cellSize⌋ := by
      exact_mod_cast Int.le_floor.mpr (by exact_mod_cast h1)
    have h3 : ⌊(radius - (x + cellSize)) / cellSize⌋ = ⌊(radius - x) / cellSize⌋ - 1 := by
      rw [show radius - (x + cellSize) = (radius - x) - cellSize by ring, sub_div,
        div_self (ne_of_gt hc), show ((1 : ℚ)) = ((1 : ℤ) : ℚ) by norm_num,
        Int.floor_sub_int]
    simp only [iterCount, if_pos hx, if_pos h, h3]
    omega
  · have h1 : (radius - x) / cellSize < 1 := by
      rw [div_lt_one hc]; linarith
    have h0 : (0 : ℚ) ≤ (radius - x) / cellSize :=
      div_nonneg (by linarith) (le_of_lt hc)
    have h2 : ⌊(radius - x) / cellSize⌋ = 0 := by
      rw [Int.floor_eq_zero_iff]; constructor <;> simp_all
    simp only [iterCount, if_pos hx, if_neg h, h2]
    rfl

theorem loopFrom_eq_map (radius cellSize : ℚ) (hc : 0 < cellSize) (x : ℚ) :
    loopFrom radius cellSize x =
      (List.range (iterCount radius cellSize x)).map
        (fun (k : ℕ) => x + (k : ℚ) * cellSize) := by
  generalize hn : iterCount radius cellSize x = n
  induction n using Nat.strong_induction_on generalizing x with
  | _ n ih =>
    by_cases hx : x ≤ radius
    · have hstep := iterCount_step radius cellSize x hc hx
      rw [hn] at hstep
      obtain ⟨m, rfl⟩ : ∃ m, n = m + 1 := ⟨iterCount radius cellSize (x + cellSize), by omega⟩
      have hm : iterCount radius cellSize (x + cellSize) = m := by omega
      rw [loopFrom, dif_pos ⟨hx, hc⟩, ih m (by omega) (x + cellSize) hm,
        List.range_succ_eq_map]
      rw [List.map_cons, List.map_map]
      congr 1
      · norm_num
      · apply List.map_congr_left
        intro k _
        simp only [Function.comp_apply]
        push_cast
        ring
    · have : n = 0 := by rw [← hn]; simp [iterCount, hx]
      subst this
      rw [loopFrom, dif_neg (by tauto)]
      simp

theorem gridPoints_eq_map (radius cellSize : ℚ) (hc : 0 < cellSize) :
    gridPoints radius cellSize =
      (List.range (iterCount radius cellSize (-radius))).map
        (fun (k : ℕ) => -radius + (k : ℚ) * cellSize) :=
  loopFrom_eq_map radius cellSize hc (-radius)

theorem mem_gridPoints (radius cellSize x : ℚ) (hc : 0 < cellSize) :
    x ∈ gridPoints radius cellSize ↔
      ∃ k : ℕ, k < iterCount radius cellSize (-radius) ∧
        x = -radius + (k : ℚ) * cellSize := by
  rw [gridPoints_eq_map radius cellSize hc]
  simp only [List.mem_map, List.mem_range]
  constructor
  · rintro ⟨k, hk, rfl⟩
    exact ⟨k, hk, rfl⟩
  · rintro ⟨k, hk, rfl⟩
    exact ⟨k, hk, rfl⟩

theorem distWithin_iff_sqrt (x y r : ℚ) :
    distWithin x y r = true ↔
      Real.sqrt ((x : ℝ) * x + (y : ℝ) * y) ≤ (r : ℝ) := by
  rw [Real.sqrt_le_iff, distWithin]
  simp only [decide_eq_true_eq]
  constructor
  · rintro ⟨hr, hle⟩
    refine ⟨by exact_mod_cast hr, ?_⟩
    have h2 : ((x * x + y * y : ℚ) : ℝ) ≤ ((r * r : ℚ) : ℝ) := by exact_mod_cast hle
    push_cast at h2
    nlinarith [h2]
  · rintro ⟨hr, hle⟩
    refine ⟨by exact_mod_cast hr, ?_⟩
    have h2 : ((x * x + y * y : ℚ) : ℝ) ≤ ((r * r : ℚ) : ℝ) := by
      push_cast
      nlinarith [hle]
    exact_mod_cast h2

theorem mem_patternCells (centerX centerY radius cellSize : ℚ) (dir : Direction)
    (p : ℚ × ℚ) :
    p ∈ patternCells centerX centerY radius cellSize dir ↔
      ∃ x ∈ gridPoints radius cellSize, ∃ y ∈ gridPoints radius cellSize,
        inHalfCircle radius cellSize dir x y = true ∧
          p = (centerX + x, centerY + y) := by
  simp only [patternCells, List.mem_flatMap, List.mem_filterMap]
  constructor
  · rintro ⟨x, hx, y, hy, hxy⟩
    by_cases h : inHalfCircle radius cellSize dir x y = true
    · rw [if_pos h] at hxy
      exact ⟨x, hx, y, hy, h, (Option.some_inj.mp hxy).symm⟩
    · rw [if_neg h] at hxy
      exact absurd hxy (by simp)
  · rintro ⟨x, hx, y, hy, h, rfl⟩
    exact ⟨x, hx, y, hy, by rw [if_pos h]⟩

theorem sq_sum_bounds (x y r : ℚ) (h : x * x + y * y ≤ r * r) (h0 : 0 ≤ r) :
    -r ≤ x ∧ x ≤ r ∧ -r ≤ y ∧ y ≤ r := by
  refine ⟨?_, ?_, ?_, ?_⟩ <;> nlinarith [mul_self_nonneg x, mul_self_nonneg y]

/-- C2: for every module size and style parameters the composite canvas side
equals `moduleSize + halfDiscRadius + max(0, scaledDistance)` with
`halfDiscRadius = moduleSize * patternSizePercent / 100` and
`scaledDistance = (distancePercent - 50) / 100 * moduleSize`; in particular
for `moduleSize = 200`, `patternSizePercent = 100`, `distancePercent = 100`
the composite side is `500 ≥ 500`. -/
theorem composite_size_formula :
    (∀ (qrSize : ℚ) (st : HalfCircleSettings),
        compositeSize qrSize st =
          qrSize + qrSize * st.size / 100 +
            max 0 ((st.distance - 50) / 100 * qrSize)) ∧
    (500 : ℚ) ≤ compositeSize 200 ⟨100, 8, 100, 1⟩ := by
  constructor
  · intro qrSize st
    rfl
  · rw [compositeSize, halfCircleRadius, maxDistance, scaledDistance]
    norm_num

/-- C9: the pattern synthesizer never fails; with degenerate radius
(`radius ≤ 0`, cell size at least the clamp value 2) the candidate cell
set is empty, because every enumerable candidate fails the distance test
`dist ≤ radius - cellSize / 2`. -/
theorem degenerate_radius_empty (centerX centerY radius cellSize : ℚ)
    (dir : Direction) (hr : radius ≤ 0) (hc : 2 ≤ cellSize) :
    patternCells centerX centerY radius cellSize dir = [] := by
  have hc0 : (0 : ℚ) < cellSize := by linarith
  rcases lt_or_eq_of_le hr with h | h
  · have hg : gridPoints radius cellSize = [] := by
      rw [gridPoints, loopFrom, dif_neg]
      rintro ⟨h1, -⟩
      linarith
    simp [patternCells, hg]
  · subst h
    have hg : gridPoints 0 cellSize = [0] := by
      rw [gridPoints, neg_zero, loopFrom, dif_pos ⟨le_refl (0 : ℚ), hc0⟩,
        loopFrom, dif_neg]
      rintro ⟨h1, -⟩
      linarith
    have hin : inHalfCircle 0 cellSize dir 0 0 = false := by
      unfold inHalfCircle
      have hfar : distWithin 0 0 (0 - cellSize / 2) = false := by
        rw [distWithin, decide_eq_false_iff_not]
        rintro ⟨h1, -⟩
        linarith
      rw [hfar]
      rfl
    simp [patternCells, hg, hin]

/-- C9 witness: concrete degenerate instance `radius = 0`, `cellSize = 2`. -/
theorem degenerate_radius_empty_witness :
    patternCells 0 0 0 2 Direction.right = [] :=
  degenerate_radius_empty 0 0 0 2 Direction.right (by norm_num) (by norm_num)

/-- C6 (amended): when a render fails the pipeline yields no image and
never surfaces a partial image, and a successful render atomically stores
the full new image and clears the error — but the error surfacing and
retention differ from the claim: the preview path surfaces its message
while clearing the previously displayed preview instead of retaining it;
the download path retains the displayed preview and surfaces its message
only when composite generation fails (the throw/catch branch) — when the
final canvas context is unavailable it returns silently, with no message,
no state change and no download triggered. -/
theorem error_step_behavior :
    (∀ s : PreviewState,
        (generatePreviewStep none s).compositeDataUrl = none ∧
        (generatePreviewStep none s).error = some previewErrorMessage) ∧
    (∀ (s : PreviewState) (d : String),
        generatePreviewStep (some d) s =
          ⟨some d, none⟩) ∧
    (∀ (s : PreviewState) (ctxAvailable : Bool),
        (downloadStep none s).compositeDataUrl = s.compositeDataUrl ∧
        (downloadStep none s).error = some downloadErrorMessage ∧
        downloadTriggered none ctxAvailable = false) ∧
    (∀ (s : PreviewState) (d : String),
        downloadStep (some d) s = s ∧
        downloadTriggered (some d) false = false) ∧
    (∀ d : String, downloadTriggered (some d) true = true) :=
  ⟨fun s => ⟨rfl, rfl⟩, fun s d => rfl, fun s ctxAvailable => ⟨rfl, rfl, rfl⟩,
    fun s d => ⟨rfl, rfl⟩, fun d => rfl⟩

/-- C6 counterexample: starting from a state that displays a valid preview,
a failing render does not retain it — `generatePreviewStep` replaces it
with `none` (while setting the error message), so the prior preview is
lost rather than retained. -/
theorem preview_retention_counterexample :
    (generatePreviewStep none ⟨some "prev", none⟩).compositeDataUrl ≠
      some "prev" ∧
    (generatePreviewStep none ⟨some "prev", none⟩).error =
      some previewErrorMessage := by
  constructor
  · intro hcontra
    simp [generatePreviewStep] at hcontra
  · rfl

/-- C7 (amended): the commit path `handleColorChange` accepts exactly the
strings matching `^#[0-9A-Fa-f]{6}$` and keeps the previous stored color on
any non-matching input, and 7-character text-field submissions go through
`handleColorChange`; however shorter `#`-prefixed inputs are stored by the
text field without validation, so the claim's guarantee only holds for the
full-length submissions. -/
theorem color_validation_amended :
    (∀ current input : String, isValidHexColor input = true →
        handleColorChange current input = input) ∧
    (∀ current input : String, isValidHexColor input = false →
        handleColorChange current input = current) ∧
    (∀ current input : String, input.length = 7 →
        hexTextInputChange current input = handleColorChange current input) := by
  refine ⟨?_, ?_, ?_⟩
  · intro current input h
    rw [handleColorChange, if_pos h]
  · intro current input h
    rw [handleColorChange, if_neg (by rw [h]; intro hcontra; cases hcontra)]
  · intro current input h7
    rw [hexTextInputChange]
    by_cases hsh : startsWithHash input = true
    · rw [if_pos (by rw [hsh, h7]; rfl), if_pos h7]
    · have hinv : isValidHexColor input = false := by
        rw [isValidHexColor]
        rw [startsWithHash] at hsh
        revert hsh
        match input.data with
        | [] => intro hsh; rfl
        | c :: rest =>
          intro hsh
          by_cases hch : c = '#'
          · subst hch; simp at hsh
          · simp [hch]
      rw [if_neg (by rw [Bool.not_eq_true] at hsh; rw [hsh]; intro hcontra; cases hcontra)]
      rw [handleColorChange, if_neg (by rw [hinv]; intro hcontra; cases hcontra)]

/-- C7 witness: a matching color is accepted, and a 7-character
non-matching one is committed through the validating path. -/
theorem color_validation_witness :
    handleColorChange "#000000" "#2563eb" = "#2563eb" ∧
    hexTextInputChange "#000000" "#12345G" = handleColorChange "#000000" "#12345G" :=
  ⟨color_validation_amended.1 "#000000" "#2563eb" (by decide),
    color_validation_amended.2.2 "#000000" "#12345G" (by decide)⟩

/-- C7 counterexample: the text-field path stores the `#`-prefixed but
non-matching input `"#12"`, so an input failing the strict pattern does
update the stored color. -/
theorem color_validation_counterexample :
    hexTextInputChange "#000000" "#12" = "#12" ∧
    isValidHexColor "#12" = false ∧ "#12" ≠ "#000000" := by
  refine ⟨by decide, by decide, by decide⟩

/-- C5 (amended): the spreadsheet-embedding encoder fixes the reduced
resolution (150 px) and JPEG quality (0.7) up front, but performs no length
check: every `(URL, QRCode)` row stores the encoder's output verbatim, so a
string exceeding the 32767-character ceiling would be written unchanged
(there is no further reduction and no `PayloadTooLargeError`). -/
theorem xlsx_rows_verbatim (encode : String → String) (urlText : String) :
    (∀ r ∈ xlsxRows encode urlText, r.2 = encode r.1) ∧
    spreadsheetQrSize = 150 ∧ spreadsheetJpegQuality = 7 / 10 := by
  refine ⟨?_, rfl, rfl⟩
  intro r hr
  simp only [xlsxRows, List.mem_filterMap] at hr
  obtain ⟨u, hu, hru⟩ := hr
  by_cases h : jsTrim u ≠ ""
  · rw [if_pos h] at hru
    obtain rfl := Option.some_inj.mp hru
    rfl
  · rw [if_neg h] at hru
    cases hru

/-- C5 witness: a concrete row stores exactly the encoder output. -/
theorem xlsx_rows_verbatim_witness :
    (("u", "uu") : String × String).2 =
      (fun t : String => t ++ t) (("u", "uu") : String × String).1 := by
  have hmem : (("u", "uu") : String × String) ∈ xlsxRows (fun t => t ++ t) "u" := by
    rw [show xlsxRows (fun t : String => t ++ t) "u" = [("u", "uu")] from rfl]
    exact List.mem_singleton.mpr rfl
  exact (xlsx_rows_verbatim (fun t => t ++ t) "u").1 ("u", "uu") hmem

/-- C5 counterexample: an encoder output above the 32767-character ceiling
is written into a row unchanged — the pipeline does not reduce it further
and raises no error, refuting the claimed guard. -/
theorem xlsx_ceiling_counterexample :
    ¬ (∀ (encode : String → String) (urlText : String),
        ∀ r ∈ xlsxRows encode urlText, r.2.length ≤ excelCellLimit) := by
  intro h
  have hmem : ("u", String.mk (List.replicate 32768 'A')) ∈
      xlsxRows (fun _ => String.mk (List.replicate 32768 'A')) "u" := by
    rw [show xlsxRows (fun _ : String => String.mk (List.replicate 32768 'A')) "u" =
      [("u", String.mk (List.replicate 32768 'A'))] from rfl]
    exact List.mem_singleton.mpr rfl
  have h2 := h _ "u" _ hmem
  rw [show (("u", String.mk (List.replicate 32768 'A')) : String × String).2 =
    String.mk (List.replicate 32768 'A') from rfl] at h2
  rw [show (String.mk (List.replicate 32768 'A')).length =
    (List.replicate 32768 'A').length from rfl, List.length_replicate] at h2
  simp only [excelCellLimit] at h2
  omega

/-- C4: the keep/drop decision is the stated pure sine-hash function of the
cell's absolute coordinates and the seed; it is congruent in those inputs,
the drawn cell set is exactly the in-region cells passing the hash, and two
runs of the composite computation on the same inputs give identical cell
sets (determinism). -/
theorem pattern_determinism :
    (∀ x y seed : ℚ,
        shouldFill x y seed ↔
          0.45 < Real.sin ((x : ℝ) * 12.9898 + (y : ℝ) * 78.233 +
              (seed : ℝ) * 47.123) * 43758.5453 -
            ⌊Real.sin ((x : ℝ) * 12.9898 + (y : ℝ) * 78.233 +
              (seed : ℝ) * 47.123) * 43758.5453⌋) ∧
    (∀ x y seed x' y' seed' : ℚ, x = x' → y = y' → seed = seed' →
        (shouldFill x y seed ↔ shouldFill x' y' seed')) ∧
    (∀ (centerX centerY radius cellSize seed : ℚ) (dir : Direction) (p : ℚ × ℚ),
        p ∈ keptCells centerX centerY radius cellSize dir seed ↔
          p ∈ patternCells centerX centerY radius cellSize dir ∧
            shouldFill p.1 p.2 seed) ∧
    (∀ (qrSize : ℚ) (st : HalfCircleSettings),
        compositeKept qrSize st = compositeKept qrSize st ∧
        compositeCells qrSize st = compositeCells qrSize st) := by
  refine ⟨fun x y seed => Iff.rfl, ?_, ?_, fun qrSize st => ⟨rfl, rfl⟩⟩
  · rintro x y seed x' y' seed' rfl rfl rfl
    exact Iff.rfl
  · intro centerX centerY radius cellSize seed dir p
    exact Iff.rfl

/-- C4 witness: congruence applied at concrete equal inputs. -/
theorem pattern_determinism_witness :
    shouldFill 1 2 3 ↔ shouldFill 1 2 3 :=
  pattern_determinism.2.1 1 2 3 1 2 3 rfl rfl rfl

/-- C8: a grid candidate at offset `(x, y)` (enumerated at step `cellSize`
from `-radius` to `radius` on both axes) contributes an absolute cell if
and only if `sqrt(x² + y²) ≤ radius - cellSize / 2` and the offset lies on
the selected half — `x ≥ 0` for right, `y ≥ 0` for bottom — tested before
translating to the center. -/
theorem in_region_characterization (centerX centerY radius cellSize x y : ℚ)
    (dir : Direction) (hc : 0 < cellSize)
    (hx : x ∈ gridPoints radius cellSize) (hy : y ∈ gridPoints radius cellSize) :
    (centerX + x, centerY + y) ∈ patternCells centerX centerY radius cellSize dir ↔
      (Real.sqrt ((x : ℝ) * x + (y : ℝ) * y) ≤ (radius : ℝ) - (cellSize : ℝ) / 2 ∧
        (match dir with
         | Direction.right => 0 ≤ x
         | Direction.bottom => 0 ≤ y)) := by
  rw [mem_patternCells]
  constructor
  · rintro ⟨x', hx', y', hy', hin, heq⟩
    rw [Prod.mk.injEq] at heq
    have hxx : x = x' := by have := heq.1; linarith
    have hyy : y = y' := by have := heq.2; linarith
    subst hxx
    subst hyy
    simp only [inHalfCircle, Bool.and_eq_true] at hin
    obtain ⟨hdist, hhalf⟩ := hin
    refine ⟨?_, ?_⟩
    · have hsqrt := (distWithin_iff_sqrt x y (radius - cellSize / 2)).mp hdist
      push_cast at hsqrt
      exact hsqrt
    · cases dir
      · simpa using hhalf
      · simpa using hhalf
  · rintro ⟨hdist, hhalf⟩
    refine ⟨x, hx, y, hy, ?_, rfl⟩
    simp only [inHalfCircle, Bool.and_eq_true]
    refine ⟨(distWithin_iff_sqrt x y (radius - cellSize / 2)).mpr ?_, ?_⟩
    · push_cast
      exact hdist
    · cases dir
      · simpa using hhalf
      · simpa using hhalf

/-- C8 witness: the offset `(0, 0)` of a radius-2, cell-size-2 right half
disc satisfies the characterization and is a pattern cell. -/
theorem in_region_characterization_witness :
    ((0 : ℚ) + 0, (0 : ℚ) + 0) ∈ patternCells 0 0 2 2 Direction.right := by
  have hg : (0 : ℚ) ∈ gridPoints 2 2 := by
    rw [mem_gridPoints 2 2 0 (by norm_num)]
    refine ⟨1, ?_, by norm_num⟩
    rw [iterCount, if_pos (by norm_num : (-(2 : ℚ)) ≤ 2)]
    norm_num
  refine (in_region_characterization 0 0 2 2 0 0 Direction.right (by norm_num) hg hg).mpr
    ⟨?_, le_refl 0⟩
  push_cast
  rw [show (0 : ℝ) * 0 + 0 * 0 = 0 by ring, Real.sqrt_zero]
  norm_num

/-- C10: the caller-side clamp keeps the cell size at least 2; for a
positive step the grid enumeration makes strict progress (each visited
offset is strictly larger than the previous), the candidate list is finite
with at most `(⌊2·radius / cellSize⌋ + 1)²` cells, while with a zero step
every iterate of the loop variable still satisfies the loop guard (the
source loop would never exit). -/
theorem loop_progress_and_bounds :
    (∀ (qrSize : ℚ) (st : HalfCircleSettings), 2 ≤ scaledCellSize qrSize st) ∧
    (∀ radius cellSize : ℚ, 2 ≤ cellSize →
        List.Chain' (fun a b => a < b) (gridPoints radius cellSize)) ∧
    (∀ (centerX centerY radius cellSize : ℚ) (dir : Direction), 2 ≤ cellSize →
        ((patternCells centerX centerY radius cellSize dir).length : ℤ) ≤
          (⌊2 * radius / cellSize⌋ + 1) ^ 2) ∧
    (∀ radius : ℚ, 0 ≤ radius → ∀ k : ℕ, -radius + (k : ℚ) * 0 ≤ radius) := by
  refine ⟨fun qrSize st => le_max_left 2 _, ?_, ?_, ?_⟩
  · intro radius cellSize hc
    have hc0 : (0 : ℚ) < cellSize := by linarith
    rw [gridPoints_eq_map radius cellSize hc0]
    apply List.Pairwise.chain'
    rw [List.pairwise_map]
    have hrange : (List.range (iterCount radius cellSize (-radius))).Pairwise
        (fun a b => a < b) := List.pairwise_lt_range _
    refine hrange.imp ?_
    intro a b hab
    have : (a : ℚ) < (b : ℚ) := by exact_mod_cast hab
    nlinarith
  · intro centerX centerY radius cellSize dir hc
    have hc0 : (0 : ℚ) < cellSize := by linarith
    by_cases hr : 0 ≤ radius
    · have hlen1 : (gridPoints radius cellSize).length =
          iterCount radius cellSize (-radius) := by
        rw [gridPoints_eq_map radius cellSize hc0, List.length_map, List.length_range]
      have hlen : (patternCells centerX centerY radius cellSize dir).length ≤
          iterCount radius cellSize (-radius) * iterCount radius cellSize (-radius) := by
        rw [patternCells, List.length_flatMap]
        calc ((gridPoints radius cellSize).map fun x =>
              ((gridPoints radius cellSize).filterMap fun y =>
                if inHalfCircle radius cellSize dir x y then
                  some (centerX + x, centerY + y)
                else none).length).sum
            ≤ ((gridPoints radius cellSize).map fun x =>
              ((gridPoints radius cellSize).filterMap fun y =>
                if inHalfCircle radius cellSize dir x y then
                  some (centerX + x, centerY + y)
                else none).length).length *
                iterCount radius cellSize (-radius) := by
              apply List.sum_le_card_nsmul
              intro n hn
              rw [List.mem_map] at hn
              obtain ⟨x, hxmem, rfl⟩ := hn
              calc ((gridPoints radius cellSize).filterMap fun y =>
                    if inHalfCircle radius cellSize dir x y then
                      some (centerX + x, centerY + y)
                    else none).length
                  ≤ (gridPoints radius cellSize).length := List.length_filterMap_le _ _
                _ = iterCount radius cellSize (-radius) := hlen1
          _ = iterCount radius cellSize (-radius) * iterCount radius cellSize (-radius) := by
              rw [List.length_map, hlen1]
      have hcount : (iterCount radius cellSize (-radius) : ℤ) =
          ⌊2 * radius / cellSize⌋ + 1 := by
        rw [iterCount, if_pos (by linarith : -radius ≤ radius),
          show radius - -radius = 2 * radius by ring]
        have h0 : (0 : ℤ) ≤ ⌊2 * radius / cellSize⌋ :=
          Int.floor_nonneg.mpr (div_nonneg (by linarith) (le_of_lt hc0))
        push_cast [Int.toNat_of_nonneg h0]
        ring
      have : ((patternCells centerX centerY radius cellSize dir).length : ℤ) ≤
          (iterCount radius cellSize (-radius) : ℤ) *
            (iterCount radius cellSize (-radius) : ℤ) := by
        exact_mod_cast hlen
      rw [hcount] at this
      nlinarith [this]
    · have hg : gridPoints radius cellSize = [] := by
        rw [gridPoints, loopFrom, dif_neg]
        rintro ⟨h1, -⟩
        have : (0 : ℚ) ≤ radius := by linarith
        exact hr this
      rw [patternCells, hg]
      simp only [List.flatMap_nil, List.length_nil, Nat.cast_zero]
      positivity
  · intro radius hradius k
    have : (k : ℚ) * 0 = 0 := by ring
    rw [this]
    linarith

/-- C10 witness: progress and the cell-count bound at a concrete radius 4,
cell size 2 instance. -/
theorem loop_progress_and_bounds_witness :
    List.Chain' (fun a b => a < b) (gridPoints 4 2) ∧
    ((patternCells 0 0 4 2 Direction.right).length : ℤ) ≤
      (⌊2 * (4 : ℚ) / 2⌋ + 1) ^ 2 :=
  ⟨loop_progress_and_bounds.2.1 4 2 (by norm_num),
    loop_progress_and_bounds.2.2.1 0 0 4 2 Direction.right (by norm_num)⟩

theorem mem_compositeCells_right (qrSize : ℚ) (st : HalfCircleSettings) (x y : ℚ)
    (hx : x ∈ gridPoints (halfCircleRadius qrSize st) (scaledCellSize qrSize st))
    (hy : y ∈ gridPoints (halfCircleRadius qrSize st) (scaledCellSize qrSize st))
    (hin : inHalfCircle (halfCircleRadius qrSize st) (scaledCellSize qrSize st)
      Direction.right x y = true) :
    ((rightCenter qrSize st).1 + x, (rightCenter qrSize st).2 + y) ∈
      compositeCells qrSize st :=
  List.mem_append_left _
    ((mem_patternCells (rightCenter qrSize st).1 (rightCenter qrSize st).2
      (halfCircleRadius qrSize st) (scaledCellSize qrSize st) Direction.right
      _).mpr ⟨x, hx, y, hy, hin, rfl⟩)

/-- C1 (amended): the composite canvas can clip the half-disc patterns.
What does hold for every nonnegative module size and style parameters with
`distancePercent ≥ 0` and `patternSizePercent ≥ 0`: every pattern-region
cell square (side `scaledCellSize`) lies within the enlarged bounds
`[qrSize / 2 - halfDiscRadius, compositeSize + scaledCellSize / 2]` on both
axes, and every drawn (hash-kept) cell is such a region cell.  Containment
in `[0, compositeSize]²` fails in general: with `patternSizePercent > 50`
cells extend above / left of the canvas, and squares can extend up to
`scaledCellSize / 2` beyond the right / bottom edge. -/
theorem composite_cells_bounds (qrSize : ℚ) (st : HalfCircleSettings)
    (hq : 0 ≤ qrSize) (hd0 : 0 ≤ st.distance) (hsz : 0 ≤ st.size) :
    (∀ p ∈ compositeCells qrSize st,
        qrSize / 2 - halfCircleRadius qrSize st ≤ p.1 ∧
        p.1 + scaledCellSize qrSize st ≤
          compositeSize qrSize st + scaledCellSize qrSize st / 2 ∧
        qrSize / 2 - halfCircleRadius qrSize st ≤ p.2 ∧
        p.2 + scaledCellSize qrSize st ≤
          compositeSize qrSize st + scaledCellSize qrSize st / 2) ∧
    (∀ p ∈ compositeKept qrSize st, p ∈ compositeCells qrSize st) := by
  have hR : 0 ≤ halfCircleRadius qrSize st :=
    div_nonneg (mul_nonneg hq hsz) (by norm_num)
  have hd : -(qrSize / 2) ≤ scaledDistance qrSize st := by
    rw [scaledDistance]
    have hmul : (-(1 : ℚ) / 2) * qrSize ≤ ((st.distance - 50) / 100) * qrSize :=
      mul_le_mul_of_nonneg_right (by linarith) hq
    linarith
  have hdm : scaledDistance qrSize st ≤ maxDistance qrSize st :=
    le_max_right 0 _
  have hm0 : 0 ≤ maxDistance qrSize st := le_max_left 0 _
  have hc2 : (2 : ℚ) ≤ scaledCellSize qrSize st := le_max_left 2 _
  have hS : compositeSize qrSize st =
      qrSize + halfCircleRadius qrSize st + maxDistance qrSize st := rfl
  constructor
  · intro p hp
    rcases List.mem_append.mp hp with h | h
    · rw [mem_patternCells] at h
      obtain ⟨x, hx, y, hy, hin, rfl⟩ := h
      simp only [inHalfCircle, Bool.and_eq_true, decide_eq_true_eq] at hin
      obtain ⟨hdist, hhalf⟩ := hin
      simp only [distWithin, decide_eq_true_eq] at hdist
      obtain ⟨hr2, hsq⟩ := hdist
      obtain ⟨hx1, hx2, hy1, hy2⟩ := sq_sum_bounds x y _ hsq hr2
      simp only [rightCenter]
      refine ⟨by linarith, by linarith, by linarith, by linarith⟩
    · rw [mem_patternCells] at h
      obtain ⟨x, hx, y, hy, hin, rfl⟩ := h
      simp only [inHalfCircle, Bool.and_eq_true, decide_eq_true_eq] at hin
      obtain ⟨hdist, hhalf⟩ := hin
      simp only [distWithin, decide_eq_true_eq] at hdist
      obtain ⟨hr2, hsq⟩ := hdist
      obtain ⟨hx1, hx2, hy1, hy2⟩ := sq_sum_bounds x y _ hsq hr2
      simp only [bottomCenter]
      refine ⟨by linarith, by linarith, by linarith, by linarith⟩
  · intro p hp
    rcases hp with h | h
    · exact List.mem_append_left _ h.1
    · exact List.mem_append_right _ h.1

/-- C1 counterexample: with the valid parameters `distancePercent = 50`,
`cellSizePercent = 2`, `patternSizePercent = 100` and module size 200, the
pattern region cell at absolute position `(200, -96)` (offset `(0, -196)`
of the right half disc) lies above the composite canvas, so the canvas
clips the right pattern region. -/
theorem composite_clip_counterexample :
    ¬ (∀ p ∈ compositeCells 200 ⟨50, 2, 100, 1⟩,
        0 ≤ p.1 ∧ p.1 + scaledCellSize 200 ⟨50, 2, 100, 1⟩ ≤
            compositeSize 200 ⟨50, 2, 100, 1⟩ ∧
        0 ≤ p.2 ∧ p.2 + scaledCellSize 200 ⟨50, 2, 100, 1⟩ ≤
            compositeSize 200 ⟨50, 2, 100, 1⟩) := by
  intro h
  have hR : halfCircleRadius 200 ⟨50, 2, 100, 1⟩ = 200 := by
    rw [halfCircleRadius]
    norm_num
  have hc : scaledCellSize 200 ⟨50, 2, 100, 1⟩ = 4 := by
    rw [scaledCellSize]
    norm_num
  have hrc : rightCenter 200 ⟨50, 2, 100, 1⟩ = (200, 100) := by
    rw [rightCenter, scaledDistance]
    norm_num
  have hcnt : iterCount 200 4 (-200) = 101 := by
    rw [iterCount, if_pos (by norm_num : (-(200 : ℚ)) ≤ 200)]
    norm_num
    rfl
  have hx : (0 : ℚ) ∈ gridPoints 200 4 := by
    rw [mem_gridPoints 200 4 0 (by norm_num), hcnt]
    exact ⟨50, by norm_num, by norm_num⟩
  have hy : (-196 : ℚ) ∈ gridPoints 200 4 := by
    rw [mem_gridPoints 200 4 (-196) (by norm_num), hcnt]
    exact ⟨1, by norm_num, by norm_num⟩
  have hin : inHalfCircle 200 4 Direction.right 0 (-196) = true := by
    simp only [inHalfCircle, distWithin, Bool.and_eq_true, decide_eq_true_eq]
    norm_num
  have hmem := mem_compositeCells_right 200 ⟨50, 2, 100, 1⟩ 0 (-196)
    (by rw [hR, hc]; exact hx) (by rw [hR, hc]; exact hy) (by rw [hR, hc]; exact hin)
  rw [hrc] at hmem
  have hbounds := h _ hmem
  have hy0 := hbounds.2.2.1
  norm_num at hy0

/-- C1 witness: the amended bounds applied to a concrete in-bounds cell of
the right pattern for module size 200, `distancePercent = 50`,
`cellSizePercent = 8`, `patternSizePercent = 50`. -/
theorem composite_cells_bounds_witness :
    ((212 : ℚ), (96 : ℚ)) ∈ compositeCells 200 ⟨50, 8, 50, 1⟩ ∧
    (200 : ℚ) / 2 - halfCircleRadius 200 ⟨50, 8, 50, 1⟩ ≤ 212 := by
  have hR : halfCircleRadius 200 ⟨50, 8, 50, 1⟩ = 100 := by
    rw [halfCircleRadius]
    norm_num
  have hc : scaledCellSize 200 ⟨50, 8, 50, 1⟩ = 16 := by
    rw [scaledCellSize]
    norm_num
  have hrc : rightCenter 200 ⟨50, 8, 50, 1⟩ = (200, 100) := by
    rw [rightCenter, scaledDistance]
    norm_num
  have hcnt : iterCount 100 16 (-100) = 13 := by
    rw [iterCount, if_pos (by norm_num : (-(100 : ℚ)) ≤ 100)]
    norm_num
    rfl
  have hx : (12 : ℚ) ∈ gridPoints 100 16 := by
    rw [mem_gridPoints 100 16 12 (by norm_num), hcnt]
    exact ⟨7, by norm_num, by norm_num⟩
  have hy : (-4 : ℚ) ∈ gridPoints 100 16 := by
    rw [mem_gridPoints 100 16 (-4) (by norm_num), hcnt]
    exact ⟨6, by norm_num, by norm_num⟩
  have hin : inHalfCircle 100 16 Direction.right 12 (-4) = true := by
    simp only [inHalfCircle, distWithin, Bool.and_eq_true, decide_eq_true_eq]
    norm_num
  have hmem := mem_compositeCells_right 200 ⟨50, 8, 50, 1⟩ 12 (-4)
    (by rw [hR, hc]; exact hx) (by rw [hR, hc]; exact hy) (by rw [hR, hc]; exact hin)
  rw [hrc] at hmem
  have hmem2 : ((212 : ℚ), (96 : ℚ)) ∈ compositeCells 200 ⟨50, 8, 50, 1⟩ := by
    have heq : (((200 : ℚ), (100 : ℚ)).1 + 12, ((200 : ℚ), (100 : ℚ)).2 + -4) =
        ((212 : ℚ), (96 : ℚ)) := by norm_num
    rw [heq] at hmem
    exact hmem
  refine ⟨hmem2, ?_⟩
  exact ((composite_cells_bounds 200 ⟨50, 8, 50, 1⟩ (by norm_num) (by norm_num)
    (by norm_num)).1 (212, 96) hmem2).1

theorem cos_rotationAngle : Real.cos rotationAngle = -(Real.sqrt 2 / 2) := by
  have hang : rotationAngle = -(3 * Real.pi / 4) := by
    rw [rotationAngle]
    ring
  have h34 : 3 * Real.pi / 4 = Real.pi - Real.pi / 4 := by ring
  rw [hang, Real.cos_neg, h34, Real.cos_pi_sub, Real.cos_pi_div_four]

theorem sin_rotationAngle : Real.sin rotationAngle = -(Real.sqrt 2 / 2) := by
  have hang : rotationAngle = -(3 * Real.pi / 4) := by
    rw [rotationAngle]
    ring
  have h34 : 3 * Real.pi / 4 = Real.pi - Real.pi / 4 := by ring
  rw [hang, Real.sin_neg, h34, Real.sin_pi_sub, Real.sin_pi_div_four]

/-- C3: the final canvas is a square of side `⌈√2 · S⌉ ≥ S·√2`, and under
`translate(diagonal/2, diagonal/2); rotate(-135°); translate(-S/2, -S/2)`
every source position `(x, y) ∈ [0, S]²` of the composite maps inside the
final canvas bounds `[0, diagonal]²` — no corner is cropped. -/
theorem rotation_containment (s : ℚ) (x y : ℝ) (hs : 0 ≤ s)
    (hx0 : 0 ≤ x) (hxS : x ≤ (s : ℝ)) (hy0 : 0 ≤ y) (hyS : y ≤ (s : ℝ)) :
    finalDiagonal s = ⌈Real.sqrt 2 * (s : ℝ)⌉ ∧
    (s : ℝ) * Real.sqrt 2 ≤ ((finalDiagonal s : ℤ) : ℝ) ∧
    (0 ≤ (rotatePoint s (x, y)).1 ∧
      (rotatePoint s (x, y)).1 ≤ ((finalDiagonal s : ℤ) : ℝ)) ∧
    (0 ≤ (rotatePoint s (x, y)).2 ∧
      (rotatePoint s (x, y)).2 ≤ ((finalDiagonal s : ℤ) : ℝ)) := by
  have hd : Real.sqrt 2 * (s : ℝ) ≤ ((finalDiagonal s : ℤ) : ℝ) := Int.le_ceil _
  have h2 : (0 : ℝ) ≤ Real.sqrt 2 := Real.sqrt_nonneg 2
  have hax : Real.sqrt 2 * x ≤ Real.sqrt 2 * (s : ℝ) :=
    mul_le_mul_of_nonneg_left hxS h2
  have hax0 : 0 ≤ Real.sqrt 2 * x := mul_nonneg h2 hx0
  have hay : Real.sqrt 2 * y ≤ Real.sqrt 2 * (s : ℝ) :=
    mul_le_mul_of_nonneg_left hyS h2
  have hay0 : 0 ≤ Real.sqrt 2 * y := mul_nonneg h2 hy0
  have hp1 : (rotatePoint s (x, y)).1 =
      ((finalDiagonal s : ℤ) : ℝ) / 2 + (Real.sqrt 2 * y - Real.sqrt 2 * x) / 2 := by
    simp only [rotatePoint, cos_rotationAngle, sin_rotationAngle]
    ring
  have hp2 : (rotatePoint s (x, y)).2 =
      ((finalDiagonal s : ℤ) : ℝ) / 2 + Real.sqrt 2 * (s : ℝ) / 2 -
        (Real.sqrt 2 * x + Real.sqrt 2 * y) / 2 := by
    simp only [rotatePoint, cos_rotationAngle, sin_rotationAngle]
    ring
  refine ⟨rfl, by linarith, ⟨?_, ?_⟩, ⟨?_, ?_⟩⟩
  · rw [hp1]
    linarith
  · rw [hp1]
    linarith
  · rw [hp2]
    linarith
  · rw [hp2]
    linarith

/-- C3 witness: containment applied at the corner `(0, 0)` of a composite
of side 1. -/
theorem rotation_containment_witness :
    0 ≤ (rotatePoint 1 ((0 : ℝ), (0 : ℝ))).1 ∧
    (rotatePoint 1 ((0 : ℝ), (0 : ℝ))).1 ≤ ((finalDiagonal 1 : ℤ) : ℝ) :=
  (rotation_containment 1 0 0 (by norm_num) (by norm_num) (by norm_num)
    (by norm_num) (by norm_num)).2.2.1

end QrShaper
